import Mathlib

/-!
Verification of the section-rewriting core of `CombinedModFix.py`.

Text is modelled as `List Char`; a "line" is a `List Char` produced by the
embedding of Python's `str.splitlines(keepends=True)`.  The regular
expressions of the source are embedded as executable functions whose
semantics (including capture groups chosen by greedy/lazy backtracking)
follow Python's `re` module; `\w`, `\d` and case-insensitive matching are
modelled over their ASCII ranges, which covers every pattern literal the
source uses.
-/

set_option maxRecDepth 4000

namespace CombinedModFix

abbrev Line := List Char

/-- The set of characters Python's `str.strip`, `str.isspace` and `re` `\s`
recognise as whitespace. -/
def isPySpace (c : Char) : Bool :=
  c.toNat = 0x9 ∨ c.toNat = 0xa ∨ c.toNat = 0xb ∨ c.toNat = 0xc ∨
  c.toNat = 0xd ∨ c.toNat = 0x1c ∨ c.toNat = 0x1d ∨ c.toNat = 0x1e ∨
  c.toNat = 0x1f ∨ c.toNat = 0x20 ∨ c.toNat = 0x85 ∨ c.toNat = 0xa0 ∨
  c.toNat = 0x1680 ∨ (0x2000 ≤ c.toNat ∧ c.toNat ≤ 0x200a) ∨
  c.toNat = 0x2028 ∨ c.toNat = 0x2029 ∨ c.toNat = 0x202f ∨
  c.toNat = 0x205f ∨ c.toNat = 0x3000

/-- The single characters Python's `str.splitlines` treats as a line
boundary (`\r\n` as a pair is handled separately). -/
def isLineBreak (c : Char) : Bool :=
  c.toNat = 0xa ∨ c.toNat = 0xb ∨ c.toNat = 0xc ∨ c.toNat = 0xd ∨
  c.toNat = 0x1c ∨ c.toNat = 0x1d ∨ c.toNat = 0x1e ∨ c.toNat = 0x85 ∨
  c.toNat = 0x2028 ∨ c.toNat = 0x2029

/-- ASCII-range model of Python `str.lower` / `re.IGNORECASE` folding. -/
def lc (c : Char) : Char := c.toLower

/-- ASCII-range model of `\w`: letters, digits and underscore. -/
def isWordChar (c : Char) : Bool :=
  c.isAlpha ∨ c.isDigit ∨ c = '_'

/-- Abbreviation turning a string literal into the character list the
embedding works on. -/
def strC (s : String) : List Char := s.toList

/-- Case-sensitive `str.startswith` on character lists. -/
def startsWithL : List Char → List Char → Bool
  | [], _ => true
  | _ :: _, [] => false
  | p :: ps, c :: cs => decide (p = c) && startsWithL ps cs

/-- Case-insensitive anchored literal match (ASCII folding). -/
def startsWithCI : List Char → List Char → Bool
  | [], _ => true
  | _ :: _, [] => false
  | p :: ps, c :: cs => decide (lc p = lc c) && startsWithCI ps cs

/-- Python's substring containment `needle in hay`. -/
def containsSub (needle : List Char) : List Char → Bool
  | [] => needle.isEmpty
  | c :: cs => startsWithL needle (c :: cs) || containsSub needle cs

/-- Case-insensitive substring containment (callers pre-lowercase,
mirroring the source's `.lower()` / `re.IGNORECASE` uses). -/
def endsWithL (pat s : List Char) : Bool :=
  startsWithL pat.reverse s.reverse

/-- Python `str.lstrip()` (no argument: strips whitespace). -/
def pyLstrip (s : List Char) : List Char := s.dropWhile isPySpace

/-- Python `str.rstrip()`. -/
def pyRstrip (s : List Char) : List Char :=
  (s.reverse.dropWhile isPySpace).reverse

/-- Python `str.strip()`. -/
def pyStrip (s : List Char) : List Char := pyLstrip (pyRstrip s)

/-- Python `str.rstrip('\r\n')`: strips only CR and LF from the right. -/
def pyRstripCRLF (s : List Char) : List Char :=
  (s.reverse.dropWhile (fun c => c = '\r' ∨ c = '\n')).reverse

/-- Python `list.insert i x`: positions beyond the end append. -/
def pyInsert (i : Nat) (x : α) (l : List α) : List α :=
  l.take i ++ x :: l.drop i

/-- Python `str.splitlines(keepends=True)`. -/
def pySplitlines : List Char → List Line
  | [] => []
  | c :: cs =>
    if isLineBreak c then
      match c, cs with
      | '\r', '\n' :: cs' => ['\r', '\n'] :: pySplitlines cs'
      | c, cs => [c] :: pySplitlines cs
    else
      match pySplitlines cs with
      | [] => [[c]]
      | l :: ls => (c :: l) :: ls

/-!  Embeddings of the compiled regular expressions (source lines 78-81),
each one a function giving the same match/capture result as `re.match`. -/

/-- Embedding of `SECTION_HEADER_RE = ^\s*\[(.+?)\]\s*$` applied with `re.match`;
returns `m.group(1).strip()` (the splitter strips the captured name).
The match succeeds iff after the leading whitespace comes `[`, the last
`]` of the remainder is preceded by a nonempty newline-free group and
followed only by whitespace. -/
def sectionHeaderMatch (line : Line) : Option Line :=
  match line.dropWhile isPySpace with
  | '[' :: rest =>
    let rev := rest.reverse
    let sufRev := rev.takeWhile (fun c => c ≠ ']')
    match rev.dropWhile (fun c => c ≠ ']') with
    | [] => none
    | _ :: grpRev =>
      let grp := grpRev.reverse
      if grp ≠ [] ∧ sufRev.all isPySpace ∧ grp.all (fun c => c ≠ '\n') then
        some (pyStrip grp)
      else none
  | _ => none

/-- Value/trailing capture of `PS_T0_RE` after the `=` sign: the embedding
of `\s*(.+?)(\s*)$`.  When the remainder has a non-whitespace character the
lazy group spans from the first to the last non-whitespace character;
when it is all whitespace, backtracking leaves the last non-`\n`
character as the value and the rest as the trailing group. -/
def psT0Value (rest : List Char) : Option (List Char × List Char) :=
  if rest.any (fun c => ¬ isPySpace c) then
    let core := pyRstrip rest
    let v := core.dropWhile isPySpace
    if v.all (fun c => c ≠ '\n') then some (v, rest.drop core.length)
    else none
  else
    match rest.reverse.dropWhile (fun c => c = '\n') with
    | [] => none
    | c :: tl => some ([c], rest.drop (tl.length + 1))

/-- Embedding of `PS_T0_RE = ^(\s*)(ps-t0)\s*=\s*(.+?)(\s*)$` (IGNORECASE) applied with
`re.match`; returns the captures `(indent, value, trailing)`. -/
def psT0Match (line : Line) : Option (List Char × List Char × List Char) :=
  let indent := line.takeWhile isPySpace
  let r0 := line.dropWhile isPySpace
  if startsWithCI (strC "ps-t0") r0 then
    match (r0.drop 5).dropWhile isPySpace with
    | '=' :: rest => (psT0Value rest).map (fun p => (indent, p.1, p.2))
    | _ => none
  else none

/-- Embedding of `RUN_FACE_RE = ^\s*run\s*=\s*(CommandList\w*Face\w*)\s*$`
(IGNORECASE) applied with `re.match`, as a Boolean test. -/
def runFaceMatch (line : Line) : Bool :=
  let s0 := line.dropWhile isPySpace
  startsWithCI (strC "run") s0 &&
    match (s0.drop 3).dropWhile isPySpace with
    | '=' :: r1 =>
      let s2 := r1.dropWhile isPySpace
      let token := s2.takeWhile isWordChar
      let ltoken := token.map lc
      startsWithL (strC "commandlist") ltoken &&
        containsSub (strC "face") (ltoken.drop 11) &&
        (s2.drop token.length).all isPySpace
    | _ => false

/-- Embedding of `RUN_LINE_PATTERN = \s*run\s*=\s*CommandList\\global\\ORFix\\(NNFix|ORFix)`
(IGNORECASE) applied with `re.match`: a prefix match, any suffix allowed. -/
def runLineMatch (line : Line) : Bool :=
  let s0 := line.dropWhile isPySpace
  startsWithCI (strC "run") s0 &&
    match (s0.drop 3).dropWhile isPySpace with
    | '=' :: r1 =>
      let s2 := r1.dropWhile isPySpace
      startsWithCI (strC "CommandList\\global\\ORFix\\NNFix") s2 ||
        startsWithCI (strC "CommandList\\global\\ORFix\\ORFix") s2
    | _ => false

/-- Embedding of `re.match(r'ps-t\d+', stripped)` from `process_orfix_block` (source
line 201): case-sensitive, at least one digit. -/
def psTStart (stripped : Line) : Bool :=
  startsWithL (strC "ps-t") stripped &&
    match stripped.drop 4 with
    | c :: _ => c.isDigit
    | [] => false

/-- Embedding of `re.match(r'\s*ps-t0\s*=', l, re.IGNORECASE)` from
`process_orfix_sections` (source lines 243 and 275). -/
def containsPsT0 (line : Line) : Bool :=
  let s0 := line.dropWhile isPySpace
  startsWithCI (strC "ps-t0") s0 &&
    match (s0.drop 5).dropWhile isPySpace with
    | '=' :: _ => true
    | _ => false

/-!  Section splitting and classification (source lines 86-137). -/

/-- One step state of `split_into_sections`: accumulated sections are
produced in order; `hdr`/`cur` mirror `current_header`/`current_lines`. -/
def sisGo (hdr : Option Line) (cur : List Line) : List Line → List (Option Line × List Line)
  | [] => if cur ≠ [] ∨ hdr ≠ none then [(hdr, cur)] else []
  | ln :: rest =>
    match sectionHeaderMatch ln with
    | some name =>
      if cur ≠ [] ∨ hdr ≠ none then
        (hdr, cur) :: sisGo (some name) [ln] rest
      else
        sisGo (some name) [ln] rest
    | none => sisGo hdr (cur ++ [ln]) rest

/-- Embedding of `split_into_sections` (source lines 86-105). -/
def splitIntoSections (text : List Char) : List (Option Line × List Line) :=
  sisGo none [] (pySplitlines text)

/-- Embedding of `is_face_section_by_header` (source lines 107-116); `None` and the
empty name are falsy in Python. -/
def isFaceSectionByHeader : Option Line → Bool
  | none => false
  | some h =>
    if h = [] then false
    else
      let l := h.map lc
      containsSub (strC "face") l &&
        (startsWithL (strC "commandlist") l || startsWithL (strC "textureoverride") l)

/-- Embedding of `section_has_run_face` (source lines 118-123). -/
def sectionHasRunFace (lines : List Line) : Bool :=
  lines.any runFaceMatch

/-- The lowercase bracketed names matched by `COMMANDLIST_EXCLUSIONS`
(source lines 53-65): each pattern anchors the whole bracketed name. -/
def commandListExclusionNames : List (List Char) :=
  [strC "[commandlistcreditinfo]", strC "[commandlistmenu]",
   strC "[commandlistloada]", strC "[commandlistloada2]",
   strC "[commandlistloadb]", strC "[commandlistloadb2]",
   strC "[commandlistloadc]", strC "[commandlistloadc2]",
   strC "[commandlistloadd]", strC "[commandlistloadd2]",
   strC "[commandlistsavea]", strC "[commandlistsavea2]",
   strC "[commandlistsaveb]", strC "[commandlistsaveb2]",
   strC "[commandlistsavec]", strC "[commandlistsavec2]",
   strC "[commandlistsaved]", strC "[commandlistsaved2]",
   strC "[commandlistrandom0]", strC "[commandlistrandom0d]",
   strC "[commandlistrandom1]", strC "[commandlistrandom1d]",
   strC "[commandlistrandom2]", strC "[commandlistrandom2d]",
   strC "[commandlistrandom3]", strC "[commandlistrandom3d]",
   strC "[commandlistrandom4]", strC "[commandlistrandom4d]",
   strC "[commandlistrandom5]", strC "[commandlistrandom5d]"]

/-- Embedding of `^\[(CommandList|TextureOverride).*Suffix\]$` (IGNORECASE) fullmatch
against the bracketed name `[h]`: the name starts with one of the two
prefixes, ends with the suffix, is long enough for both, and `.*` forbids
newlines. -/
def cltoPatternMatch (sfx : List Char) (lh : List Char) : Bool :=
  (startsWithL (strC "commandlist") lh || startsWithL (strC "textureoverride") lh) &&
  endsWithL sfx lh &&
  (if startsWithL (strC "commandlist") lh then
    decide (11 + sfx.length ≤ lh.length)
   else
    decide (15 + sfx.length ≤ lh.length)) &&
  lh.all (fun c => c ≠ '\n')

/-- Embedding of `should_auto_exclude_section` (source lines 125-130) over the
`AUTO_EXCLUDE_PATTERNS` table (source lines 43-67). -/
def shouldAutoExcludeSection : Option Line → Bool
  | none => false
  | some h =>
    if h = [] then false
    else
      let lh := h.map lc
      -- `^\[.*IB\]$`
      (endsWithL (strC "ib") lh && lh.all (fun c => c ≠ '\n')) ||
      cltoPatternMatch (strC "position") lh ||
      cltoPatternMatch (strC "texcoord") lh ||
      cltoPatternMatch (strC "blend") lh ||
      cltoPatternMatch (strC "info") lh ||
      cltoPatternMatch (strC "vertexlimitraise") lh ||
      commandListExclusionNames.contains ('[' :: lh ++ [']'])

/-- Embedding of `should_auto_mode_exclude` (source lines 132-137): unanchored
case-insensitive search for `face` and `limbs?`. -/
def shouldAutoModeExclude : Option Line → Bool
  | none => false
  | some h =>
    if h = [] then false
    else
      containsSub (strC "face") (h.map lc) || containsSub (strC "limb") (h.map lc)

/-!  Change records. -/

/-- A change record: `('FACE', header, line_no, old, new)` or
`('ORFIX_ADD'/'ORFIX_REMOVE', section, line)`. -/
inductive Change where
  | face (header : Option Line) (lineNo : Nat) (old new : Line)
  | orfixAdd (sectionName : Option Line) (line : Line)
  | orfixRemove (sectionName : Option Line) (line : Line)
  deriving DecidableEq, Repr

/-!  FaceFix pass (source lines 142-182). -/

/-- Embedding of `full_section = f"[{header}]" if header else None` and the
membership test in `manual_excludes`. -/
def faceManuallyExcluded (hdr : Option Line) (manualExcludes : List Line) : Bool :=
  match hdr with
  | some h => if h = [] then false else manualExcludes.contains ('[' :: h ++ [']'])
  | none => false

/-- The rewrite of one matching line (source lines 169-175): note the
detected line ending is appended after the `trailing` capture, which
already ends with that line ending. -/
def faceRewrite (indent rhs trailing : List Char) (ln : Line) : Line :=
  let nl : List Char :=
    if endsWithL (strC "\r\n") ln then strC "\r\n"
    else if endsWithL (strC "\n") ln then strC "\n"
    else []
  indent ++ strC "this = " ++ rhs ++ trailing ++ nl

/-- Per-line loop body of `process_face_sections` for one section's lines,
carrying the file-wide 1-based line counter. -/
def faceLines (allowed : Bool) (hdr : Option Line) (no : Nat) :
    List Line → List Change × List Line
  | [] => ([], [])
  | ln :: rest =>
    let (cs, outs) := faceLines allowed hdr (no + 1) rest
    if allowed then
      match psT0Match ln with
      | some (indent, rhs, trailing) =>
        let newLine := faceRewrite indent rhs trailing ln
        (Change.face hdr (no + 1) (pyRstripCRLF ln) (pyRstripCRLF newLine) :: cs,
         newLine :: outs)
      | none => (cs, ln :: outs)
    else (cs, ln :: outs)

/-- Loop of `process_face_sections` over the sections, threading the
file-wide line counter. -/
def faceSectionsGo (manualExcludes : List Line) (no : Nat) :
    List (Option Line × List Line) → List Change × List Line
  | [] => ([], [])
  | (hdr, lines) :: rest =>
    let allowed :=
      if faceManuallyExcluded hdr manualExcludes then false
      else isFaceSectionByHeader hdr || sectionHasRunFace lines
    let (cs, outs) := faceLines allowed hdr no lines
    let (cs', outs') := faceSectionsGo manualExcludes (no + lines.length) rest
    (cs ++ cs', outs ++ outs')

/-- Embedding of `process_face_sections` (source lines 142-182).  The `autoMode`
argument is accepted and, as in the source, never used. -/
def processFaceSections (sections : List (Option Line × List Line))
    (autoMode : Bool) (manualExcludes : List Line) : List Change × List Char :=
  let (changed, outLines) := faceSectionsGo manualExcludes 0 sections
  (changed, outLines.flatten)

/-!  ORFix pass (source lines 187-292). -/

/-- Index assigned by the first loop of `process_orfix_block` (source
lines 197-202): the index of the last line whose `lstrip` starts with
`ps-t<digit>`, case-sensitively. -/
def lastPsIdx : List Line → Option Nat
  | [] => none
  | ln :: rest =>
    match lastPsIdx rest with
    | some k => some (k + 1)
    | none => if psTStart (pyLstrip ln) then some 0 else none

/-- The directive chosen by `process_orfix_block` (source line 215). -/
def correctRun (hasNormal : Bool) : Line :=
  if hasNormal then strC "run = CommandList\\global\\ORFix\\ORFix\n"
  else strC "run = CommandList\\global\\ORFix\\NNFix\n"

/-- The removal pass of `process_orfix_block` (source lines 205-211). -/
def removeRunLines (block : List Line) : List Line :=
  block.filter (fun l => ¬ runLineMatch l)

/-- Embedding of `process_orfix_block` (source lines 187-221).  `has_normal` is the
case-sensitive substring test for `NormalMap`; removals record each
removed line stripped; the insertion reuses the pre-removal index
`last_ps_index` against the post-removal list, guarded by
`last_ps_index < len(new_block)`. -/
def processOrfixBlock (block : List Line) (sectionName : Option Line) :
    List Line × List Change :=
  if block = [] then (block, [])
  else
    let hasNormal := block.any (fun l => containsSub (strC "NormalMap") l)
    let li := lastPsIdx block
    let newBlock := removeRunLines block
    let removeChanges :=
      (block.filter (fun l => runLineMatch l)).map
        (fun l => Change.orfixRemove sectionName (pyStrip l))
    let run := correctRun hasNormal
    match li with
    | some i =>
      if i < newBlock.length then
        if newBlock.length > i + 1 ∧ pyStrip (newBlock.getD (i + 1) []) = pyStrip run then
          (newBlock, removeChanges)
        else
          (pyInsert (i + 1) run newBlock,
           removeChanges ++ [Change.orfixAdd sectionName (pyStrip run)])
      else (newBlock, removeChanges)
    | none => (newBlock, removeChanges)

/-- A line opens an ORFix block iff its stripped form starts with
`[CommandList` or `[TextureOverride` — case-sensitively (source line 240). -/
def orfixHeaderLine (line : Line) : Bool :=
  startsWithL (strC "[CommandList") (pyStrip line) ||
    startsWithL (strC "[TextureOverride") (pyStrip line)

/-- Embedding of `f"[{current_section}]"`; Python would render a `None` section as
`[None]` (unreachable: blocks only accumulate under a truthy section). -/
def fmtBracketed : Option Line → Line
  | some h => '[' :: h ++ [']']
  | none => '[' :: strC "None" ++ [']']

/-- Python truthiness of `current_section`. -/
def sectionTruthy : Option Line → Bool
  | some h => h ≠ []
  | none => false

/-- The block dispatch of `process_orfix_sections`, duplicated verbatim in
the source at lines 243-260 (interior blocks) and 274-290 (final block):
eligibility from the `ps-t0` content test, the structural auto-exclusion,
and the mode-specific exclusion. -/
def processBlockDispatch (autoMode : Bool) (manualExcludes : List Line)
    (currentSection : Option Line) (blockLines : List Line) :
    List Line × List Change :=
  let containsP := blockLines.any containsPsT0
  let insideAuto := shouldAutoExcludeSection currentSection
  let processBlock :=
    if autoMode then
      ¬ insideAuto && ¬ shouldAutoModeExclude currentSection && containsP
    else
      ¬ insideAuto && ¬ manualExcludes.contains (fmtBracketed currentSection) && containsP
  if processBlock then processOrfixBlock blockLines currentSection
  else (blockLines, [])

/-- The line loop of `process_orfix_sections` (source lines 237-291),
carrying `current_section` and the accumulated `block_lines`; emitted
lines and changes are produced in order. -/
def orfixGo (autoMode : Bool) (manualExcludes : List Line)
    (currentSection : Option Line) (blockLines : List Line) :
    List Line → List Line × List Change
  | [] =>
    if blockLines ≠ [] then
      processBlockDispatch autoMode manualExcludes currentSection blockLines
    else ([], [])
  | ln :: rest =>
    if orfixHeaderLine ln then
      let flushed :=
        if blockLines ≠ [] then
          processBlockDispatch autoMode manualExcludes currentSection blockLines
        else ([], [])
      let newSection := some ((pyStrip ln).drop 1 |>.dropLast)
      let (outs, cs) := orfixGo autoMode manualExcludes newSection [] rest
      (flushed.1 ++ ln :: outs, flushed.2 ++ cs)
    else if sectionTruthy currentSection then
      orfixGo autoMode manualExcludes currentSection (blockLines ++ [ln]) rest
    else
      let (outs, cs) := orfixGo autoMode manualExcludes currentSection blockLines rest
      (ln :: outs, cs)

/-- Embedding of `process_orfix_sections` (source lines 223-292): returns the change
list and the joined rewritten text. -/
def processOrfixSections (text : List Char) (autoMode : Bool)
    (manualExcludes : List Line) : List Change × List Char :=
  let (outs, cs) := orfixGo autoMode manualExcludes none [] (pySplitlines text)
  (cs, outs.flatten)

/-!  Combined driver (source lines 297-323), modelled on the file's text
(the surrounding file I/O and exception handling are external). -/

/-- The pure core of `process_file_combined` (source lines 309-323):
returns `(has_changes, all_changes, new_text)`. -/
def processFileCombined (content : List Char) (autoMode : Bool)
    (manualExcludes : List Line) (processDisabled : Bool) :
    Bool × List Change × List Char :=
  if containsSub (strC "DISABLED") content && ¬ processDisabled then
    (false, [], content)
  else
    let sections := splitIntoSections content
    let (faceChanges, textAfterFace) := processFaceSections sections autoMode manualExcludes
    let (orfixChanges, finalText) := processOrfixSections textAfterFace autoMode manualExcludes
    let allChanges := faceChanges ++ orfixChanges
    (allChanges ≠ [], allChanges, finalText)

/-!  Spec-side descriptions used for refinement statements. -/

/-- Described from the spec's words: the index of the last line of the
block whose form, stripped of leading whitespace, starts with
`ps-t<digits>` (case-sensitively): the greatest matching index. -/
def lastSlotLineIdx (block : List Line) : Option Nat :=
  ((List.range block.length).filter
    (fun j => psTStart (pyLstrip (block.getD j [])))).getLast?

/-- Described from the amended claim's words: remove every
derived-directive line (recording each), choose the directive by the
case-sensitive `NormalMap` test, and insert it at position `i + 1` of the
post-removal list — `i` being the pre-removal index of the last
case-sensitively matching slot line — provided `i` is below the
post-removal length, unless the line already at that position has
identical trimmed text. -/
def orfixBlockSpec (block : List Line) (sn : Option Line) : List Line × List Change :=
  if block = [] then (block, [])
  else
    let kept := block.filter (fun l => ¬ runLineMatch l)
    let removes := (block.filter (fun l => runLineMatch l)).map
      (fun l => Change.orfixRemove sn (pyStrip l))
    let dir := correctRun (block.any (fun l => containsSub (strC "NormalMap") l))
    match lastSlotLineIdx block with
    | some i =>
      if i < kept.length then
        if i + 1 < kept.length ∧ pyStrip (kept.getD (i + 1) []) = pyStrip dir then
          (kept, removes)
        else
          (pyInsert (i + 1) dir kept, removes ++ [Change.orfixAdd sn (pyStrip dir)])
      else (kept, removes)
    | none => (kept, removes)

/-!  Theorems about the embedded program. -/

/-- Last-match recursion distributes over append: a match in the right
part wins, with indices offset by the left part's length. -/
theorem lastPsIdx_append (l m : List Line) :
    lastPsIdx (l ++ m) = match lastPsIdx m with
      | some k => some (l.length + k)
      | none => lastPsIdx l := by
  induction l with
  | nil => cases h : lastPsIdx m <;> simp [h, lastPsIdx]
  | cons a l ih =>
    have hstep : lastPsIdx (a :: (l ++ m)) = match lastPsIdx (l ++ m) with
        | some k => some (k + 1)
        | none => if psTStart (pyLstrip a) then some 0 else none := rfl
    cases h : lastPsIdx m with
    | some k =>
      have ih' : lastPsIdx (l ++ m) = some (l.length + k) := by rw [ih, h]
      rw [List.cons_append, hstep, ih']
      simp only [List.length_cons, Option.some.injEq]
      omega
    | none =>
      have ih' : lastPsIdx (l ++ m) = lastPsIdx l := by rw [ih, h]
      rw [List.cons_append, hstep, ih']
      rfl

/-- The loop-computed last slot index agrees with its description as the
greatest matching index. -/
theorem lastSlotLineIdx_eq_lastPsIdx (l : List Line) :
    lastSlotLineIdx l = lastPsIdx l := by
  induction l using List.reverseRecOn with
  | nil => rfl
  | append_singleton l a ih =>
    have hr : lastPsIdx (l ++ [a]) =
        if psTStart (pyLstrip a) then some l.length else lastPsIdx l := by
      rw [lastPsIdx_append]
      by_cases hp : psTStart (pyLstrip a)
      · simp [lastPsIdx, hp]
      · simp [lastPsIdx, hp]
    have hfc : ((List.range l.length).filter
        (fun j => psTStart (pyLstrip ((l ++ [a]).getD j [])))) =
        ((List.range l.length).filter
        (fun j => psTStart (pyLstrip (l.getD j [])))) := by
      apply List.filter_congr
      intro j hj
      have hjl : j < l.length := List.mem_range.mp hj
      rw [List.getD_append _ _ _ _ hjl]
    rw [hr]
    unfold lastSlotLineIdx
    rw [show (l ++ [a]).length = l.length + 1 by simp, List.range_succ,
      List.filter_append, hfc]
    have hgd : (l ++ [a]).getD l.length [] = a := by
      rw [List.getD_eq_getElem?_getD, List.getElem?_append_right (Nat.le_refl _)]
      simp
    by_cases hp : psTStart (pyLstrip a)
    · rw [if_pos hp]
      simp only [List.filter_cons, List.filter_nil, hgd, hp, if_true]
      exact List.getLast?_concat _
    · rw [if_neg hp]
      simp only [List.filter_cons, List.filter_nil, hgd, hp, Bool.false_eq_true,
        if_false, List.append_nil]
      exact ih

/-- C4 (amended): the behavior of `process_orfix_block` matches the
amended description: every derived-directive line is removed and recorded,
the directive is `ORFix` iff some line contains `NormalMap`, and it is
inserted at position `i + 1` of the post-removal list for the pre-removal
last (case-sensitive) slot index `i`, guarded by `i` being in range of the
post-removal list and by the following line not already carrying the same
trimmed text. -/
theorem orfix_block_characterized (block : List Line) (sn : Option Line) :
    processOrfixBlock block sn = orfixBlockSpec block sn := by
  by_cases hb : block = []
  · simp [processOrfixBlock, orfixBlockSpec, hb]
  · rw [orfixBlockSpec, lastSlotLineIdx_eq_lastPsIdx, if_neg hb,
      processOrfixBlock, if_neg hb]
    cases hli : lastPsIdx block with
    | some i => simp only [hli]; rfl
    | none => simp only [hli]; rfl

/-- Joining the lines produced by the splitlines embedding reproduces the
input text. -/
theorem pySplitlines_flatten (s : List Char) : (pySplitlines s).flatten = s := by
  induction s using pySplitlines.induct with
  | case1 => rfl
  | case2 cs' h ih =>
    rw [show pySplitlines ('\r' :: '\n' :: cs') = ['\r', '\n'] :: pySplitlines cs' from rfl]
    simp [ih]
  | case3 c cs hne h ih =>
    have he : pySplitlines (c :: cs) = [c] :: pySplitlines cs := by
      rw [pySplitlines.eq_def]
      dsimp only
      rw [if_pos h]
      split
      · rename_i cs' heq
        exact (hne heq rfl rfl).elim
      · rfl
    rw [he]; simp [ih]
  | case4 c cs h hnil ih =>
    have he : pySplitlines (c :: cs) = [[c]] := by
      rw [pySplitlines.eq_def]
      dsimp only
      rw [if_neg h, hnil]
    have hcs : cs = [] := by rw [hnil] at ih; simpa using ih.symm
    rw [he, hcs]; rfl
  | case5 c cs h l ls hcons ih =>
    have he : pySplitlines (c :: cs) = (c :: l) :: ls := by
      rw [pySplitlines.eq_def]
      dsimp only
      rw [if_neg h, hcons]
    rw [hcons] at ih
    rw [he]
    simpa using ih

/-- The splitter loop distributes every input line, in order, into exactly
one produced section. -/
theorem sisGo_snd_flatten (lines : List Line) : ∀ (hdr : Option Line) (cur : List Line),
    ((sisGo hdr cur lines).map Prod.snd).flatten = cur ++ lines := by
  induction lines with
  | nil =>
    intro hdr cur
    by_cases hc : cur ≠ [] ∨ hdr ≠ none
    · simp [sisGo, hc]
    · have hcur : cur = [] := by
        rcases not_or.mp hc with ⟨h1, _⟩
        simpa using h1
      simp [sisGo, hc, hcur]
  | cons ln rest ih =>
    intro hdr cur
    cases hsm : sectionHeaderMatch ln with
    | some name =>
      by_cases hc : cur ≠ [] ∨ hdr ≠ none
      · simp [sisGo, hsm, hc, ih]
      · rcases not_or.mp hc with ⟨h1, h2⟩
        have hcur : cur = [] := by simpa using h1
        have hhdr : hdr = none := by simpa using h2
        simp [sisGo, hsm, hc, hcur, hhdr, ih]
    | none =>
      have := ih hdr (cur ++ [ln])
      simp [sisGo, hsm, this]

/-- C3: for every input text, including empty text, concatenating in order
the lines of every section returned by `split_into_sections` reproduces
the text exactly: the splitter is lossless, order-preserving, and total. -/
theorem split_into_sections_lossless (text : List Char) :
    (((splitIntoSections text).map Prod.snd).flatten).flatten = text := by
  unfold splitIntoSections
  rw [sisGo_snd_flatten]
  simpa using pySplitlines_flatten text

/-- C9: the FaceFix pass produces the identical change list and identical
output text whether `auto_mode` is true or false; mode-specific exclusions
never influence the FaceFix result, only the manual exclusion set does
(the source accepts `auto_mode` and never reads it). -/
theorem faceFix_ignores_auto_mode (sections : List (Option Line × List Line))
    (manualExcludes : List Line) :
    processFaceSections sections true manualExcludes =
      processFaceSections sections false manualExcludes := rfl

/-- C8: when the file's text contains the literal substring `DISABLED` and
disabled-file processing is off, `process_file_combined` reports no change,
an empty change list, and returns the original text unmodified. -/
theorem disabled_content_unchanged (content : List Char) (autoMode : Bool)
    (manualExcludes : List Line)
    (h : containsSub (strC "DISABLED") content = true) :
    processFileCombined content autoMode manualExcludes false =
      (false, [], content) := by
  simp [processFileCombined, h]

/-- Witness for C8 at a concrete disabled text. -/
theorem disabled_content_unchanged_witness :
    containsSub (strC "DISABLED") (strC "xDISABLEDy\nps-t0 = a\n") = true ∧
    processFileCombined (strC "xDISABLEDy\nps-t0 = a\n") false [] false =
      (false, [], strC "xDISABLEDy\nps-t0 = a\n") :=
  ⟨by decide, disabled_content_unchanged (strC "xDISABLEDy\nps-t0 = a\n") false [] (by decide)⟩

/-- C5: a block whose section name matches a structural auto-exclusion
pattern is emitted by the ORFix pass's block dispatch (the logic at source
lines 243-260 and 274-290) with its lines exactly unchanged and no changes,
regardless of mode or manual exclusion set. -/
theorem auto_excluded_block_unchanged (autoMode : Bool)
    (manualExcludes : List Line) (currentSection : Option Line)
    (blockLines : List Line)
    (h : shouldAutoExcludeSection currentSection = true) :
    processBlockDispatch autoMode manualExcludes currentSection blockLines =
      (blockLines, []) := by
  cases autoMode <;> simp [processBlockDispatch, h]

/-- Witness for C5 at a concrete auto-excluded section. -/
theorem auto_excluded_block_unchanged_witness :
    shouldAutoExcludeSection (some (strC "TextureOverrideHeadIB")) = true ∧
    processBlockDispatch true [] (some (strC "TextureOverrideHeadIB"))
        [strC "ps-t0 = a\n"] = ([strC "ps-t0 = a\n"], []) :=
  ⟨by decide,
   auto_excluded_block_unchanged true [] (some (strC "TextureOverrideHeadIB"))
     [strC "ps-t0 = a\n"] (by decide)⟩

/-- C1 (code bug): the FaceFix pass does not preserve the line count.  On
the two-line input `[TextureOverrideFace]\nps-t0 = X\n` the rewritten line
becomes `this = X\n\n`: the `(\s*)$` capture already holds the line ending
and the source appends the detected ending again, so the output has three
lines. -/
theorem faceFix_line_ending_doubled :
    (processFaceSections
        (splitIntoSections (strC "[TextureOverrideFace]\nps-t0 = X\n")) false []).2
      = strC "[TextureOverrideFace]\nthis = X\n\n" ∧
    (pySplitlines (strC "[TextureOverrideFace]\nps-t0 = X\n")).length = 2 ∧
    (pySplitlines (strC "[TextureOverrideFace]\nthis = X\n\n")).length = 3 := by
  exact ⟨by decide, by decide, by decide⟩

/-- C7 (code bug): the combined driver can destroy a section header.  The
input below splits into two sections (`[CommandListA]` and `[Foo]`); the
ORFix pass removes the misplaced directive and re-inserts it at the stale
pre-removal index, appending it to the unterminated final line `[Foo]`,
and the output re-splits into a single section. -/
theorem combined_driver_section_count_not_preserved :
    (splitIntoSections
        (strC "[CommandListA]\nrun = CommandList\\global\\ORFix\\NNFix\nps-t0 = a\n[Foo]")).length = 2 ∧
    (processFileCombined
        (strC "[CommandListA]\nrun = CommandList\\global\\ORFix\\NNFix\nps-t0 = a\n[Foo]")
        false [] false).2.2
      = strC "[CommandListA]\nps-t0 = a\n[Foo]run = CommandList\\global\\ORFix\\NNFix\n" ∧
    (splitIntoSections
        (strC "[CommandListA]\nps-t0 = a\n[Foo]run = CommandList\\global\\ORFix\\NNFix\n")).length = 1 := by
  exact ⟨by decide, by decide, by decide⟩

/-- C2 (counterexample): the ORFix pass is not idempotent as claimed.  On
the text below the first application removes a directive without
re-inserting it (the stale index falls outside the shortened block); the
second application produces a nonempty change list and different text. -/
theorem orfix_not_idempotent :
    (processOrfixSections
        (strC "[CommandListX]\nrun = CommandList\\global\\ORFix\\NNFix\nps-t0 = a\n")
        false []).2 = strC "[CommandListX]\nps-t0 = a\n" ∧
    (processOrfixSections (strC "[CommandListX]\nps-t0 = a\n") false []).1 ≠ [] ∧
    (processOrfixSections (strC "[CommandListX]\nps-t0 = a\n") false []).2
      ≠ strC "[CommandListX]\nps-t0 = a\n" := by
  exact ⟨by decide, by decide, by decide⟩

/-- C4 (counterexample): the directive is not always inserted immediately
after the last slot-assignment line, and the slot pattern is matched
case-sensitively.  First conjunct: a directive removed before the slot
line shifts the insertion two positions past the slot line.  Second
conjunct: an upper-case `PS-T0` line is not located at all, so nothing is
inserted. -/
theorem orfix_block_insertion_misplaced :
    (processOrfixBlock
        [strC "run = CommandList\\global\\ORFix\\NNFix\n", strC "ps-t0 = a\n", strC "x\n"]
        (some (strC "S"))).1
      = [strC "ps-t0 = a\n", strC "x\n", strC "run = CommandList\\global\\ORFix\\NNFix\n"] ∧
    processOrfixBlock [strC "PS-T0 = a\n"] (some (strC "S"))
      = ([strC "PS-T0 = a\n"], []) := by
  exact ⟨by decide, by decide⟩

/-- C6 (counterexample): block grouping is case-sensitive.  A lower-case
`[commandlistBody]` header is not treated as a block start (the pass leaves
the text unchanged with no changes), while `[CommandListBody]` with the
same body is processed. -/
theorem orfix_header_case_sensitive :
    processOrfixSections (strC "[commandlistBody]\nps-t0 = a\n") false []
      = ([], strC "[commandlistBody]\nps-t0 = a\n") ∧
    (processOrfixSections (strC "[CommandListBody]\nps-t0 = a\n") false []).1 ≠ [] := by
  exact ⟨by decide, by decide⟩

/-- C10: `process_orfix_block` is total and never indexes out of range:
its output is either the post-removal list unchanged, or that list with
the directive inserted at position `i + 1` where `i` is the located
pre-removal slot index and the insertion happens only under the source's
guard `last_ps_index < len(new_block)`, so the insertion position is
always at most the length of the list being inserted into. -/
theorem orfix_block_insertion_in_range (block : List Line) (sn : Option Line) :
    (processOrfixBlock block sn).1 = removeRunLines block ∨
    ∃ i, lastPsIdx block = some i ∧ i + 1 ≤ (removeRunLines block).length ∧
      (processOrfixBlock block sn).1 =
        pyInsert (i + 1)
          (correctRun (block.any (fun l => containsSub (strC "NormalMap") l)))
          (removeRunLines block) := by
  by_cases hb : block = []
  · left
    simp [processOrfixBlock, hb, removeRunLines]
  · cases hli : lastPsIdx block with
    | none =>
      left
      simp [processOrfixBlock, hb, hli]
    | some i =>
      by_cases hlt : i < (removeRunLines block).length
      · by_cases hg : (removeRunLines block).length > i + 1 ∧
            pyStrip ((removeRunLines block).getD (i + 1) []) =
              pyStrip (correctRun (block.any (fun l => containsSub (strC "NormalMap") l)))
        · left
          obtain ⟨hg1, hg2⟩ := hg
          rw [List.getD_eq_getElem _ _ hg1] at hg2
          simp [processOrfixBlock, hb, hli, hlt, hg1, hg2]
        · by_cases hg1 : (removeRunLines block).length > i + 1
          · have hg2 : ¬ pyStrip ((removeRunLines block)[i + 1]) =
                pyStrip (correctRun (block.any (fun l => containsSub (strC "NormalMap") l))) := by
              intro hcon
              exact hg ⟨hg1, by rw [List.getD_eq_getElem _ _ hg1]; exact hcon⟩
            right
            refine ⟨i, rfl, by omega, ?_⟩
            simp [processOrfixBlock, hb, hli, hlt, hg1, hg2]
          · right
            refine ⟨i, rfl, by omega, ?_⟩
            simp [processOrfixBlock, hb, hli, hlt, hg1]
      · left
        simp [processOrfixBlock, hb, hli, hlt]

/-- A located last slot index is a valid index of the block. -/
theorem lastPsIdx_lt_length {l : List Line} {i : Nat} (h : lastPsIdx l = some i) :
    i < l.length := by
  induction l generalizing i with
  | nil => simp [lastPsIdx] at h
  | cons a l ih =>
    rw [lastPsIdx] at h
    cases hl : lastPsIdx l with
    | some k =>
      rw [hl] at h
      cases h
      have := ih hl
      simp only [List.length_cons]
      omega
    | none =>
      rw [hl] at h
      by_cases hp : psTStart (pyLstrip a)
      · simp only [hp, if_true] at h
        cases h
        simp only [List.length_cons]
        omega
      · simp [hp] at h

/-- Any-predicate over a list with one element inserted. -/
theorem any_pyInsert (n : Nat) (x : Line) (l : List Line) (f : Line → Bool) :
    (pyInsert n x l).any f = (f x || l.any f) := by
  conv_rhs => rw [← List.take_append_drop n l]
  simp only [pyInsert, List.any_append, List.any_cons]
  cases f x <;> cases (l.take n).any f <;> cases (l.drop n).any f <;> rfl

/-- Splitting at the located last slot index: the prefix up to and
including it still locates it, and no slot line follows it. -/
theorem lastPsIdx_split {l : List Line} {i : Nat} (h : lastPsIdx l = some i) :
    lastPsIdx (l.take (i + 1)) = some i ∧ lastPsIdx (l.drop (i + 1)) = none := by
  have hlen : (l.take (i + 1)).length = i + 1 := by
    have := lastPsIdx_lt_length h
    simp [List.length_take]
    omega
  have hsplit := lastPsIdx_append (l.take (i + 1)) (l.drop (i + 1))
  rw [List.take_append_drop] at hsplit
  cases hdrop : lastPsIdx (l.drop (i + 1)) with
  | some k =>
    rw [hdrop] at hsplit
    simp only [hlen] at hsplit
    rw [h] at hsplit
    have : i + 1 + k = i := by
      have := hsplit.symm
      simpa using this
    omega
  | none =>
    rw [hdrop] at hsplit
    rw [h] at hsplit
    exact ⟨hsplit.symm, rfl⟩

/-- Inserting a non-slot line right after the last slot line does not
move the located index. -/
theorem lastPsIdx_pyInsert {l : List Line} {i : Nat} (x : Line)
    (h : lastPsIdx l = some i) (hx : psTStart (pyLstrip x) = false) :
    lastPsIdx (pyInsert (i + 1) x l) = some i := by
  obtain ⟨htake, hdrop⟩ := lastPsIdx_split h
  have hlen : (l.take (i + 1)).length = i + 1 := by
    have := lastPsIdx_lt_length h
    simp [List.length_take]
    omega
  have hxd : lastPsIdx (x :: l.drop (i + 1)) = none := by
    rw [lastPsIdx, hdrop, hx]
    simp
  rw [pyInsert, lastPsIdx_append, hxd, htake]

/-- Removing directive lines after inserting the directive into a clean
block returns the original block. -/
theorem removeRunLines_pyInsert {block : List Line} {i : Nat} (x : Line)
    (hclean : ∀ l ∈ block, runLineMatch l = false) (hx : runLineMatch x = true) :
    removeRunLines (pyInsert (i + 1) x block) = block := by
  unfold removeRunLines pyInsert
  rw [List.filter_append, List.filter_cons]
  simp only [hx]
  rw [List.filter_eq_self.mpr, List.filter_eq_self.mpr]
  · simp [List.take_append_drop]
  · intro a ha
    simp [hclean a (List.drop_subset _ _ ha)]
  · intro a ha
    simp [hclean a (List.take_subset _ _ ha)]


/-- The inserted directive itself matches the removal pattern. -/
theorem correctRun_runLineMatch (b : Bool) : runLineMatch (correctRun b) = true := by
  cases b <;> decide

/-- The inserted directive is not a slot-assignment line. -/
theorem correctRun_not_ps (b : Bool) : psTStart (pyLstrip (correctRun b)) = false := by
  cases b <;> decide

/-- The inserted directive does not contain the substring NormalMap. -/
theorem correctRun_no_normalmap (b : Bool) :
    containsSub (strC "NormalMap") (correctRun b) = false := by
  cases b <;> decide

/-- C2 (amended): on a block with no pre-existing derived-directive line
(no line matching the removal pattern, no line trim-equal to either
directive), applying `process_orfix_block` to its own output reproduces
that output exactly: the block transformation is text-idempotent even
though the second application still records a remove/re-add pair. -/
theorem orfix_block_idempotent_on_clean (block : List Line) (sn : Option Line)
    (hclean : ∀ l ∈ block, runLineMatch l = false)
    (hstr : ∀ l ∈ block, pyStrip l ≠ pyStrip (correctRun true) ∧
      pyStrip l ≠ pyStrip (correctRun false)) :
    (processOrfixBlock (processOrfixBlock block sn).1 sn).1
      = (processOrfixBlock block sn).1 := by
  have hrem : removeRunLines block = block := by
    rw [removeRunLines, List.filter_eq_self]
    intro a ha
    simp [hclean a ha]
  by_cases hb : block = []
  · simp [processOrfixBlock, hb]
  · cases hli : lastPsIdx block with
    | none =>
      have h1 : (processOrfixBlock block sn).1 = block := by
        simp [processOrfixBlock, hb, hli, hrem]
      rw [h1]
      exact h1
    | some i =>
      have hguard : ∀ (b2 : Bool),
          ¬(i + 1 < block.length ∧ pyStrip ((block[i+1]?).getD []) = pyStrip (correctRun b2)) := by
        rintro b2 ⟨hgt, heq⟩
        rw [List.getElem?_eq_getElem hgt] at heq
        have hmem : block[i+1] ∈ block := List.getElem_mem _
        have hc := hstr _ hmem
        cases b2
        · exact hc.2 heq
        · exact hc.1 heq
      have hlt : i < (removeRunLines block).length := by
        rw [hrem]
        exact lastPsIdx_lt_length hli
      have h1 : (processOrfixBlock block sn).1 =
          pyInsert (i + 1)
            (correctRun (block.any (fun l => containsSub (strC "NormalMap") l))) block := by
        have hg := hguard (block.any (fun l => containsSub (strC "NormalMap") l))
        rw [hrem] at hlt
        simp [processOrfixBlock, hb, hli, hrem, hg, hlt]
      rw [h1]
      have hXne : pyInsert (i + 1)
          (correctRun (block.any (fun l => containsSub (strC "NormalMap") l))) block ≠ [] := by
        simp [pyInsert]
      have hli2 : lastPsIdx (pyInsert (i + 1)
          (correctRun (block.any (fun l => containsSub (strC "NormalMap") l))) block) = some i :=
        lastPsIdx_pyInsert _ hli (correctRun_not_ps _)
      have hrem2 : removeRunLines (pyInsert (i + 1)
          (correctRun (block.any (fun l => containsSub (strC "NormalMap") l))) block) = block :=
        removeRunLines_pyInsert _ hclean (correctRun_runLineMatch _)
      have hany : (pyInsert (i + 1)
          (correctRun (block.any (fun l => containsSub (strC "NormalMap") l))) block).any
            (fun l => containsSub (strC "NormalMap") l)
          = block.any (fun l => containsSub (strC "NormalMap") l) := by
        rw [any_pyInsert]
        simp [correctRun_no_normalmap]
      have hg2 := hguard (block.any (fun l => containsSub (strC "NormalMap") l))
      rw [hrem] at hlt
      simp [processOrfixBlock, hXne, hli2, hrem2, hany, hg2, hlt]


/-- Witness for C2 (amended) at a concrete clean one-line block. -/
theorem orfix_block_idempotent_on_clean_witness :
    (∀ l ∈ [strC "ps-t0 = a\n"], runLineMatch l = false) ∧
    (∀ l ∈ [strC "ps-t0 = a\n"], pyStrip l ≠ pyStrip (correctRun true) ∧
      pyStrip l ≠ pyStrip (correctRun false)) ∧
    (processOrfixBlock (processOrfixBlock [strC "ps-t0 = a\n"] (some (strC "S"))).1
        (some (strC "S"))).1
      = (processOrfixBlock [strC "ps-t0 = a\n"] (some (strC "S"))).1 :=
  ⟨by decide, by decide,
   orfix_block_idempotent_on_clean [strC "ps-t0 = a\n"] (some (strC "S"))
     (by decide) (by decide)⟩

/-- Right-strip absorbs one trailing whitespace character. -/
theorem pyRstrip_append_space {c : Char} (h : isPySpace c = true) (l : List Char) :
    pyRstrip (l ++ [c]) = pyRstrip l := by
  simp [pyRstrip, List.reverse_append, List.dropWhile_cons, h]

/-- Right-strip stops at a trailing non-whitespace character. -/
theorem pyRstrip_append_nonspace {c : Char} (h : isPySpace c = false) (l : List Char) :
    pyRstrip (l ++ [c]) = l ++ [c] := by
  simp [pyRstrip, List.reverse_append, List.dropWhile_cons, h]

/-- Left-strip stops at a leading non-whitespace character. -/
theorem pyLstrip_cons_nonspace {c : Char} (h : isPySpace c = false) (l : List Char) :
    pyLstrip (c :: l) = c :: l := by
  simp [pyLstrip, List.dropWhile_cons, h]

/-- Splitlines peels one newline-terminated line off the front. -/
theorem pySplitlines_newline_append (xs ys : List Char)
    (hxs : ∀ c ∈ xs, isLineBreak c = false) :
    pySplitlines (xs ++ '\n' :: ys) = (xs ++ ['\n']) :: pySplitlines ys := by
  induction xs with
  | nil =>
    show pySplitlines ('\n' :: ys) = ['\n'] :: pySplitlines ys
    rw [pySplitlines.eq_def]
    dsimp only
    rw [if_pos (by decide)]
    split
    · rename_i c cs cs' heq
      exact absurd heq (by decide)
    · rfl
  | cons c xs ih =>
    have hc := hxs c (List.mem_cons_self _ _)
    have ih' := ih (fun d hd => hxs d (List.mem_cons_of_mem _ hd))
    rw [List.cons_append, pySplitlines.eq_def]
    dsimp only
    rw [if_neg (by simp [hc]), ih']
    simp


/-- C6 (amended): ORFix block grouping compares the header prefixes
case-sensitively.  For every whitespace/linebreak-free name whose
`CommandList` form is not auto-excluded: `[commandlist<name>]` is not
treated as a block start (the pass returns the text unchanged with no
changes), while `[CommandList<name>]` over the same `ps-t0` body is
grouped, processed, and produces a change. -/
theorem orfix_header_case_behavior (name : List Char)
    (hchars : ∀ c ∈ name, isLineBreak c = false ∧ isPySpace c = false)
    (hexcl : shouldAutoExcludeSection (some (strC "CommandList" ++ name)) = false) :
    processOrfixSections (strC "[commandlist" ++ name ++ strC "]\nps-t0 = a\n") false [] =
      ([], strC "[commandlist" ++ name ++ strC "]\nps-t0 = a\n") ∧
    (processOrfixSections (strC "[CommandList" ++ name ++ strC "]\nps-t0 = a\n") false []).1 ≠ [] := by
  have hsegl : strC "]\nps-t0 = a\n" = ']' :: '\n' :: strC "ps-t0 = a\n" := by decide
  have hps : pySplitlines (strC "ps-t0 = a\n") = [strC "ps-t0 = a\n"] := by decide
  constructor
  · -- lower-case header: nothing is recognized, all lines pass through
    have hx1 : ∀ c ∈ strC "[commandlist" ++ name ++ [']'], isLineBreak c = false := by
      intro c hc
      have hconc : ∀ x ∈ strC "[commandlist", isLineBreak x = false := by decide
      rcases List.mem_append.mp hc with h | h
      · rcases List.mem_append.mp h with h' | h'
        · exact hconc c h'
        · exact (hchars c h').1
      · simp at h
        subst h
        decide
    have hassoc : strC "[commandlist" ++ name ++ strC "]\nps-t0 = a\n"
        = (strC "[commandlist" ++ name ++ [']']) ++ '\n' :: strC "ps-t0 = a\n" := by
      rw [hsegl]
      simp [List.append_assoc]
    have hsplit1 : pySplitlines (strC "[commandlist" ++ name ++ strC "]\nps-t0 = a\n")
        = ((strC "[commandlist" ++ name ++ [']']) ++ ['\n']) :: [strC "ps-t0 = a\n"] := by
      rw [hassoc, pySplitlines_newline_append _ _ hx1, hps]
    have hstrip1 : pyStrip ((strC "[commandlist" ++ name ++ [']']) ++ ['\n'])
        = strC "[commandlist" ++ name ++ [']'] := by
      unfold pyStrip
      rw [pyRstrip_append_space (by decide), pyRstrip_append_nonspace (by decide)]
      have : strC "[commandlist" ++ name ++ [']']
          = '[' :: (strC "commandlist" ++ name ++ [']']) := by
        simp [show strC "[commandlist" = '[' :: strC "commandlist" by decide]
      rw [this, pyLstrip_cons_nonspace (by decide)]
    have hhdr1 : orfixHeaderLine ((strC "[commandlist" ++ name ++ [']']) ++ ['\n']) = false := by
      unfold orfixHeaderLine
      rw [hstrip1]
      have h1 : startsWithL (strC "[CommandList") (strC "[commandlist" ++ name ++ [']']) = false := rfl
      have h2 : startsWithL (strC "[TextureOverride") (strC "[commandlist" ++ name ++ [']']) = false := rfl
      rw [h1, h2]
      rfl
    unfold processOrfixSections
    rw [hsplit1]
    simp only [orfixGo, hhdr1, Bool.false_eq_true, if_false, sectionTruthy]
    norm_num
    exact hsegl.symm
  · -- upper-case header: the block is recognized and processed
    have hx2 : ∀ c ∈ strC "[CommandList" ++ name ++ [']'], isLineBreak c = false := by
      intro c hc
      have hconc : ∀ x ∈ strC "[CommandList", isLineBreak x = false := by decide
      rcases List.mem_append.mp hc with h | h
      · rcases List.mem_append.mp h with h' | h'
        · exact hconc c h'
        · exact (hchars c h').1
      · simp at h
        subst h
        decide
    have hassoc2 : strC "[CommandList" ++ name ++ strC "]\nps-t0 = a\n"
        = (strC "[CommandList" ++ name ++ [']']) ++ '\n' :: strC "ps-t0 = a\n" := by
      rw [hsegl]
      simp [List.append_assoc]
    have hsplit2 : pySplitlines (strC "[CommandList" ++ name ++ strC "]\nps-t0 = a\n")
        = ((strC "[CommandList" ++ name ++ [']']) ++ ['\n']) :: [strC "ps-t0 = a\n"] := by
      rw [hassoc2, pySplitlines_newline_append _ _ hx2, hps]
    have hstrip2 : pyStrip ((strC "[CommandList" ++ name ++ [']']) ++ ['\n'])
        = strC "[CommandList" ++ name ++ [']'] := by
      unfold pyStrip
      rw [pyRstrip_append_space (by decide), pyRstrip_append_nonspace (by decide)]
      have : strC "[CommandList" ++ name ++ [']']
          = '[' :: (strC "CommandList" ++ name ++ [']']) := by
        simp [show strC "[CommandList" = '[' :: strC "CommandList" by decide]
      rw [this, pyLstrip_cons_nonspace (by decide)]
    have hhdr2 : orfixHeaderLine ((strC "[CommandList" ++ name ++ [']']) ++ ['\n']) = true := by
      unfold orfixHeaderLine
      rw [hstrip2]
      have h1 : startsWithL (strC "[CommandList") (strC "[CommandList" ++ name ++ [']']) = true := by
        have : strC "[CommandList" ++ name ++ [']']
            = strC "[CommandList" ++ (name ++ [']']) := by simp
        rw [this]
        clear this hexcl hchars hstrip2
        induction (strC "[CommandList") with
        | nil => rfl
        | cons c cs ih => simpa [startsWithL] using ih
      rw [h1]
      rfl
    have hsection : (List.drop 1 (pyStrip ((strC "[CommandList" ++ name ++ [']']) ++ ['\n']))).dropLast
        = strC "CommandList" ++ name := by
      rw [hstrip2]
      have : strC "[CommandList" ++ name ++ [']']
          = '[' :: ((strC "CommandList" ++ name) ++ [']']) := by
        simp [show strC "[CommandList" = '[' :: strC "CommandList" by decide]
      rw [this]
      simp [List.dropLast_concat]
    unfold processOrfixSections
    rw [hsplit2]
    have hl2 : orfixHeaderLine (strC "ps-t0 = a\n") = false := by decide
    have hsec : sectionTruthy (some (strC "CommandList" ++ name)) = true := rfl
    have hdisp2 : processBlockDispatch false [] (some (strC "CommandList" ++ name))
        [strC "ps-t0 = a\n"]
        = ([strC "ps-t0 = a\n", correctRun false],
           [Change.orfixAdd (some (strC "CommandList" ++ name)) (pyStrip (correctRun false))]) := by
      simp only [processBlockDispatch, hexcl]
      rfl
    simp only [orfixGo, hhdr2, if_true, hsection, hl2, hsec]
    norm_num [hdisp2]


/-- Witness for C6 (amended) at the concrete name `Body`. -/
theorem orfix_header_case_behavior_witness :
    (∀ c ∈ strC "Body", isLineBreak c = false ∧ isPySpace c = false) ∧
    shouldAutoExcludeSection (some (strC "CommandList" ++ strC "Body")) = false ∧
    (processOrfixSections (strC "[commandlist" ++ strC "Body" ++ strC "]\nps-t0 = a\n") false []
        = ([], strC "[commandlist" ++ strC "Body" ++ strC "]\nps-t0 = a\n") ∧
      (processOrfixSections (strC "[CommandList" ++ strC "Body" ++ strC "]\nps-t0 = a\n")
          false []).1 ≠ []) :=
  ⟨by decide, by decide,
   orfix_header_case_behavior (strC "Body") (by decide) (by decide)⟩

end CombinedModFix
